import Mathlib

/-!
Verification development for the Pixie ZKVM core: a shallow embedding of
the preflight simulator (preflight_simulator.rs), of the ISA and program
model (vm_specs.rs), of the three trace generators (stark_cpu.rs,
stark_memory.rs, stark_program_instructions.rs) and of the proof
orchestrator (stark_pixie_zkvm.rs), together with theorems about them.

Machine integers are modelled as Nat with explicit reductions modulo 256
where the Rust code uses u8 wrapping arithmetic; HashMap is modelled as an
association list looked up by key; fallible Rust code returns Except.
Rust panics reachable from the embedded code are modelled as dedicated
error values, documented at the Failure type.
-/

namespace Pixie

/-- Register enumeration of the VM (vm_specs.rs): two values R0 and R1. -/
inductive Register
  | R0
  | R1
deriving DecidableEq, Repr

/-- Stable contiguous index of each register (vm_specs.rs, From<Register> for usize). -/
def Register.index : Register → Nat
  | .R0 => 0
  | .R1 => 1

/-- Number of registers (vm_specs.rs REGISTER_COUNT, the variant count of Register). -/
def REGISTER_COUNT : Nat := 2

/-- Instruction set of the VM (vm_specs.rs).  The nine variants Add, Sub, Mul,
Div, Shl, Shr, Lb, Sb and Halt are declared in src/vm_specs.rs.  The Jz and
Jnz variants are matched on by src/preflight_simulator.rs and
src/stark_cpu.rs and constructed by the tests, but their declaration is not
in the sources.  Modelled from the spec: conditional jump-if-zero and
jump-if-not-zero carry a test register and an absolute target address.
Memory and instruction locations are single byte values, modelled as Nat. -/
inductive Instruction
  | Add (a b : Register)
  | Sub (a b : Register)
  | Mul (a b : Register)
  | Div (a b : Register)
  | Shl (r amt : Register)
  | Shr (r amt : Register)
  | Jz (r : Register) (target : Nat)
  | Jnz (r : Register) (target : Nat)
  | Lb (r : Register) (addr : Nat)
  | Sb (r : Register) (addr : Nat)
  | Halt
deriving DecidableEq, Repr

/-- Stable numeric opcode of each instruction (vm_specs.rs get_opcode).
The values for Add..Shr, Lb, Sb and Halt are exactly the ones assigned in
src/vm_specs.rs (Add 0, Sub 1, Mul 2, Div 3, Shl 4, Shr 5, Lb 6, Sb 7,
Halt 8).  Jz and Jnz have no assignment in the sources; modelled from the
spec: opcodes are assigned contiguously from zero over all instruction
variants, so the two remaining variants receive the remaining values 9
and 10, which keeps the numbering a bijection onto 0..10 and matches the
11-column one-hot block of stark_cpu.rs. -/
def Instruction.get_opcode : Instruction → Nat
  | .Add _ _ => 0
  | .Sub _ _ => 1
  | .Mul _ _ => 2
  | .Div _ _ => 3
  | .Shl _ _ => 4
  | .Shr _ _ => 5
  | .Lb _ _ => 6
  | .Sb _ _ => 7
  | .Halt => 8
  | .Jz _ _ => 9
  | .Jnz _ _ => 10

/-- Whether an instruction is a Div, the one instruction whose execution
can panic. -/
def Instruction.isDiv : Instruction → Bool
  | .Div _ _ => true
  | _ => false

/-- The register file: a fixed array of REGISTER_COUNT byte values
(preflight_simulator.rs, registers: [u8; REGISTER_COUNT]). -/
structure Regs where
  r0 : Nat
  r1 : Nat
deriving DecidableEq, Repr

/-- Read a register (registers[usize::from(r)]). -/
def Regs.get : Regs → Register → Nat
  | s, .R0 => s.r0
  | s, .R1 => s.r1

/-- Write a register (registers[usize::from(r)] = v). -/
def Regs.set : Regs → Register → Nat → Regs
  | s, .R0, v => { s with r0 := v }
  | s, .R1, v => { s with r1 := v }

/-- Memory, modelled as an association list from byte address to byte value
(HashMap<u8, u8> in the sources; iteration order of a HashMap is
unspecified, so theorems that depend on row multiplicity carry a
no-duplicate-keys hypothesis and order-independence is stated as
permutation invariance). -/
abbrev Mem := List (Nat × Nat)

/-- Store a value at a key, overwriting an existing entry and inserting the
entry if absent (the entry().and_modify().or_insert() call in the Sb arm of
execute_one_cycle). -/
def memSet (m : Mem) (k v : Nat) : Mem :=
  if (List.lookup k m).isSome then
    m.map (fun p => if p.1 = k then (k, v) else p)
  else
    (k, v) :: m

/-- The program descriptor (vm_specs.rs Program): entry point, code map and
initial memory map. -/
structure Program where
  entry_point : Nat
  code : List (Nat × Instruction)
  memory_init : Mem
deriving DecidableEq, Repr

/-- Ways the embedded code can fail.  instructionNotFound and
cycleLimitExceeded are the two anyhow errors of preflight_simulator.rs.
divByZero models the Rust panic of wrapping_div when the divisor register
holds zero (Div arm of execute_one_cycle).  memValueMissing models the
Rust panic of the expect call in MemoryStark::generate_trace when a
load/store address is absent from the memory snapshot of its row. -/
inductive Failure
  | instructionNotFound
  | cycleLimitExceeded
  | divByZero
  | memValueMissing
deriving DecidableEq, Repr

/-- Wrapping u8 addition (u8::wrapping_add). -/
def wAdd (a b : Nat) : Nat := (a + b) % 256

/-- Wrapping u8 subtraction (u8::wrapping_sub). -/
def wSub (a b : Nat) : Nat := (a + (256 - b % 256)) % 256

/-- Wrapping u8 multiplication (u8::wrapping_mul). -/
def wMul (a b : Nat) : Nat := (a * b) % 256

/-- Panic-free u8 shift left (u8::wrapping_shl): the shift amount is first
masked to the bit width, i.e. reduced modulo 8, then the result wraps
modulo 256. -/
def wShl (v amt : Nat) : Nat := (v * 2 ^ (amt % 8)) % 256

/-- Panic-free u8 shift right (u8::wrapping_shr): the shift amount is
reduced modulo 8. -/
def wShr (v amt : Nat) : Nat := (v % 256) / 2 ^ (amt % 8)

/-- One step of execution (preflight_simulator.rs SimulationRow). -/
structure SimulationRow where
  instruction : Instruction
  clock : Nat
  program_counter : Nat
  is_halted : Bool
  registers : Regs
  memory_snapshot : Mem
deriving DecidableEq, Repr

/-- First row of a simulation (SimulationRow::generate_first_row): look the
entry point up in the code map, clock 1, not halted, all registers zero,
memory snapshot a copy of the initial memory. -/
def SimulationRow.generate_first_row (prog : Program) : Except Failure SimulationRow :=
  match List.lookup prog.entry_point prog.code with
  | none => .error .instructionNotFound
  | some instruction =>
      .ok { instruction
            clock := 1
            program_counter := prog.entry_point
            is_halted := false
            registers := ⟨0, 0⟩
            memory_snapshot := prog.memory_init }

/-- State transition of a single instruction on (program counter, register
file, memory), the match block of execute_one_cycle.  pc0 is the tentative
next program counter already computed by the caller; jumps may override
it.  Div fails (models the wrapping_div panic) when the divisor register
holds zero; Lb reads absent addresses as zero; Halt is a no-op. -/
def applyInstruction (inst : Instruction) (pc0 : Nat) (regs : Regs) (mem : Mem) :
    Except Failure (Nat × Regs × Mem) :=
  match inst with
  | .Add a b => .ok (pc0, regs.set a (wAdd (regs.get a) (regs.get b)), mem)
  | .Sub a b => .ok (pc0, regs.set a (wSub (regs.get a) (regs.get b)), mem)
  | .Mul a b => .ok (pc0, regs.set a (wMul (regs.get a) (regs.get b)), mem)
  | .Div a b =>
      if regs.get b = 0 then .error .divByZero
      else .ok (pc0, regs.set a (regs.get a / regs.get b), mem)
  | .Shl r amt => .ok (pc0, regs.set r (wShl (regs.get r) (regs.get amt)), mem)
  | .Shr r amt => .ok (pc0, regs.set r (wShr (regs.get r) (regs.get amt)), mem)
  | .Jz r target => .ok (if regs.get r = 0 then target else pc0, regs, mem)
  | .Jnz r target => .ok (if regs.get r = 0 then pc0 else target, regs, mem)
  | .Lb r addr => .ok (pc0, regs.set r ((List.lookup addr mem).getD 0), mem)
  | .Sb r addr => .ok (pc0, regs, memSet mem addr (regs.get r))
  | .Halt => .ok (pc0, regs, mem)

/-- Second half of execute_one_cycle, after the instruction has produced a
new program counter, register file and memory: look the instruction at the
new program counter up, failing if absent, and build the next row, halted
iff that instruction is Halt. -/
def execStep (prog : Program) (row : SimulationRow) (t : Nat × Regs × Mem) :
    Except Failure SimulationRow :=
  match List.lookup t.1 prog.code with
  | none => .error .instructionNotFound
  | some instruction =>
      .ok { instruction
            clock := row.clock + 1
            program_counter := t.1
            is_halted := instruction == .Halt
            registers := t.2.1
            memory_snapshot := t.2.2 }

/-- Derive the next row from the current one (SimulationRow::execute_one_cycle):
tentative next program counter is current + 1 (u8 arithmetic, modelled
wrapping), clock increments, the current instruction is applied to fresh
copies of registers and memory, then the instruction at the resulting
program counter is looked up (failing if absent) and the new row is halted
iff that instruction is Halt. -/
def SimulationRow.execute_one_cycle (row : SimulationRow) (prog : Program) :
    Except Failure SimulationRow :=
  match applyInstruction row.instruction ((row.program_counter + 1) % 256)
      row.registers row.memory_snapshot with
  | .error e => .error e
  | .ok t => execStep prog row t

/-- The complete execution history (preflight_simulator.rs PreflightSimulation). -/
structure PreflightSimulation where
  memory_init : Mem
  trace_rows : List SimulationRow
deriving DecidableEq, Repr

/-- Maximum number of CPU cycles allowed (PreflightSimulation::MAX_CPU_CYCLES_ALLOWED). -/
def MAX_CPU_CYCLES_ALLOWED : Nat := 1000

/-- The while loop of PreflightSimulation::simulate, on the reversed row
list (head = most recent row): while the row count is at most
MAX_CPU_CYCLES_ALLOWED and the last row is not halted, execute one cycle
and push the new row.  The fuel argument bounds the structural recursion;
simulate passes MAX_CPU_CYCLES_ALLOWED + 1, which is never exhausted
because each iteration grows the list whose length the loop condition
bounds. -/
def simLoop (prog : Program) : Nat → List SimulationRow → Except Failure (List SimulationRow)
  | _, [] => .ok []
  | 0, last :: rest => .ok (last :: rest)
  | fuel + 1, last :: rest =>
      if (last :: rest).length ≤ MAX_CPU_CYCLES_ALLOWED ∧ last.is_halted = false then
        match last.execute_one_cycle prog with
        | .error e => .error e
        | .ok next => simLoop prog fuel (next :: last :: rest)
      else .ok (last :: rest)

/-- Final check of PreflightSimulation::simulate, applied to the reversed
row list the loop produced: if the most recent row is not halted the run
failed with cycleLimitExceeded, otherwise the rows are reversed back into
execution order. -/
def finishSim (prog : Program) (out : List SimulationRow) :
    Except Failure PreflightSimulation :=
  match out with
  | [] => .error .cycleLimitExceeded
  | last :: rest =>
      if last.is_halted then
        .ok { memory_init := prog.memory_init
              trace_rows := (last :: rest).reverse }
      else .error .cycleLimitExceeded

/-- Simulate a program (PreflightSimulation::simulate): an empty code map
returns a zero-row simulation; otherwise the first row is generated, the
cycle loop runs, and if the final row is not halted the run fails with
cycleLimitExceeded. -/
def PreflightSimulation.simulate (prog : Program) : Except Failure PreflightSimulation :=
  if prog.code.isEmpty then
    .ok { memory_init := prog.memory_init, trace_rows := [] }
  else
    match SimulationRow.generate_first_row prog with
    | .error e => .error e
    | .ok first =>
        match simLoop prog (MAX_CPU_CYCLES_ALLOWED + 1) [first] with
        | .error e => .error e
        | .ok out => finishSim prog out

/-- Number of one-hot opcode columns of the CPU table (stark_cpu.rs
NUM_OPCODE_ONEHOT). -/
def NUM_OPCODE_ONEHOT : Nat := 11

/-- One-hot opcode encoding used by the CPU table.  The call site is
stark_cpu.rs (row.instruction.one_hot_encode_and_apply), but the function
definition is not in the sources.  Modelled from the spec: a block with
one boolean column per opcode in which exactly the column at the
instruction opcode index is set. -/
def Instruction.one_hot_encode_and_apply (inst : Instruction) : List Nat :=
  (List.range NUM_OPCODE_ONEHOT).map (fun j => if j = inst.get_opcode then 1 else 0)

/-- One row of the CPU table (stark_cpu.rs): clock, program counter, the two
register values, the operand location, the one-hot opcode block and the
is-executed filter.  Field elements are modelled as Nat. -/
structure CpuRow where
  clk : Nat
  pc : Nat
  r0 : Nat
  r1 : Nat
  loc : Nat
  onehot : List Nat
  is_exec : Nat
deriving DecidableEq, Repr

/-- Operand location column of a CPU row (the match in
CPUStark::generate_trace): the memory or instruction location for
Jz/Jnz/Lb/Sb, zero otherwise. -/
def cpuLoc : Instruction → Nat
  | .Jz _ l => l
  | .Jnz _ l => l
  | .Lb _ l => l
  | .Sb _ l => l
  | _ => 0

/-- CPU table row generated from one simulation row (body of the map in
CPUStark::generate_trace), tagged is-executed 1. -/
def cpuRowOf (row : SimulationRow) : CpuRow :=
  { clk := row.clock
    pc := row.program_counter
    r0 := row.registers.r0
    r1 := row.registers.r1
    loc := cpuLoc row.instruction
    onehot := row.instruction.one_hot_encode_and_apply
    is_exec := 1 }

/-- All-zero CPU padding row ([F::ZERO; NUMBER_OF_COLS]). -/
def cpuZeroRow : CpuRow :=
  { clk := 0, pc := 0, r0 := 0, r1 := 0, loc := 0
    onehot := List.replicate NUM_OPCODE_ONEHOT 0, is_exec := 0 }

/-- Repeated doubling of acc until it reaches n, with enough fuel to
terminate structurally. -/
def npowAux (n : Nat) : Nat → Nat → Nat
  | acc, 0 => acc
  | acc, fuel + 1 => if n ≤ acc then acc else npowAux n (2 * acc) fuel

/-- Smallest power of two at least n (usize::next_power_of_two; 0 maps
to 1): double 1 until it reaches n, which takes at most n steps. -/
def next_power_of_two (n : Nat) : Nat := npowAux n 1 n

/-- Pad a row list with copies of the zero row z up to the next power of
two (the resize call of the generators). -/
def padTo {α : Type} (l : List α) (z : α) : List α :=
  l ++ List.replicate (next_power_of_two l.length - l.length) z

/-- CPU table generation (CPUStark::generate_trace): one row per simulation
row, padded to the next power of two with all-zero rows. -/
def CPUStark.generate_trace (sim : PreflightSimulation) : List CpuRow :=
  padTo (sim.trace_rows.map cpuRowOf) cpuZeroRow

/-- One row of the Memory table (stark_memory.rs): address, clock, value,
is-lb, is-sb, is-init and is-executed columns. -/
structure MemRow where
  addr : Nat
  clk : Nat
  value : Nat
  is_lb : Nat
  is_sb : Nat
  is_init : Nat
  is_exec : Nat
deriving DecidableEq, Repr

/-- Initial-memory row of the Memory table (first map of
MemoryStark::generate_trace): clock 0, is-init 1, is-executed 1. -/
def memInitRow (p : Nat × Nat) : MemRow :=
  { addr := p.1, clk := 0, value := p.2, is_lb := 0, is_sb := 0, is_init := 1, is_exec := 1 }

/-- All-zero Memory padding row. -/
def memZeroRow : MemRow :=
  { addr := 0, clk := 0, value := 0, is_lb := 0, is_sb := 0, is_init := 0, is_exec := 0 }

/-- Classify an instruction as a memory operation (the match in the
for_each of MemoryStark::generate_trace): is-lb flag, is-sb flag and the
accessed address for Lb/Sb, nothing otherwise. -/
def memOpInfo : Instruction → Option (Bool × Bool × Nat)
  | .Lb _ a => some (true, false, a)
  | .Sb _ a => some (false, true, a)
  | _ => none

/-- Event rows of the Memory table, one per load/store simulation row in
trace order (the for_each of MemoryStark::generate_trace).  The value is
read from the memory snapshot of the row with an expect call in the
sources; an absent address is a Rust panic, modelled as the
memValueMissing failure. -/
def memEventRows : List SimulationRow → Except Failure (List MemRow)
  | [] => .ok []
  | r :: rest =>
      match memOpInfo r.instruction with
      | none => memEventRows rest
      | some (lb, sb, addr) =>
          match List.lookup addr r.memory_snapshot with
          | none => .error .memValueMissing
          | some v =>
              match memEventRows rest with
              | .error e => .error e
              | .ok tl =>
                  .ok ({ addr
                         clk := r.clock
                         value := v
                         is_lb := if lb then 1 else 0
                         is_sb := if sb then 1 else 0
                         is_init := 0
                         is_exec := 1 } :: tl)

/-- The event row a single simulation row contributes to the Memory table,
if any: none for rows whose instruction is not a load or store, and also
none (the panic case) when the accessed address is absent from the
snapshot.  memEventRows equals filterMap of this function whenever it
succeeds. -/
def eventRowOf (r : SimulationRow) : Option MemRow :=
  match memOpInfo r.instruction with
  | none => none
  | some (lb, sb, addr) =>
      (List.lookup addr r.memory_snapshot).map (fun v =>
        { addr
          clk := r.clock
          value := v
          is_lb := if lb then 1 else 0
          is_sb := if sb then 1 else 0
          is_init := 0
          is_exec := 1 })

/-- Memory table generation (MemoryStark::generate_trace): one initial row
per entry of the initial memory, then one row per load/store event in
trace order, padded to the next power of two with all-zero rows. -/
def MemoryStark.generate_trace (sim : PreflightSimulation) : Except Failure (List MemRow) :=
  match memEventRows sim.trace_rows with
  | .error e => .error e
  | .ok evs => .ok (padTo (sim.memory_init.map memInitRow ++ evs) memZeroRow)

/-- One row of the Program-Instructions table
(stark_program_instructions.rs ProgramInstructions<T>): exactly the two
declared columns, program counter and instruction data. -/
structure PIRow where
  program_counter : Nat
  instruction_data : Nat
deriving DecidableEq, Repr

/-- Declared column count of the Program-Instructions table
(stark_program_instructions.rs NUMBER_OF_COLS). -/
def PI_NUMBER_OF_COLS : Nat := 2

/-- All-zero Program-Instructions padding row. -/
def piZeroRow : PIRow := { program_counter := 0, instruction_data := 0 }

/-- Semantic (pre-padding) rows of the Program-Instructions table: one row
per (address, instruction) pair of the code map, carrying the address and
the instruction opcode. -/
def piRealRows (prog : Program) : List PIRow :=
  prog.code.map (fun p => { program_counter := p.1, instruction_data := p.2.get_opcode })

/-- Program-Instructions table generation.  The call site is
stark_pixie_zkvm.rs and e2e_tests.rs
(ProgramInstructionsStark::generate_trace(prog)), but the function
definition is not in the sources.  Modelled from the spec: one row per
(address, instruction) pair present in the code map, padded to the next
power of two with all-zero rows; the column layout is the two-column one
declared in stark_program_instructions.rs, which has no is-real-row
filter column. -/
def ProgramInstructionsStark.generate_trace (prog : Program) : List PIRow :=
  padTo (piRealRows prog) piZeroRow

/-- Field elements of a CPU row in column order. -/
def rowFieldsCpu (r : CpuRow) : List Nat :=
  [r.clk, r.pc, r.r0, r.r1, r.loc] ++ r.onehot ++ [r.is_exec]

/-- Field elements of a Memory row in column order. -/
def rowFieldsMem (r : MemRow) : List Nat :=
  [r.addr, r.clk, r.value, r.is_lb, r.is_sb, r.is_init, r.is_exec]

/-- Field elements of a Program-Instructions row in column order. -/
def rowFieldsPI (r : PIRow) : List Nat :=
  [r.program_counter, r.instruction_data]

/-- Result of one proving session (stark_pixie_zkvm.rs generate_proof):
the commitment digests observed by the Fiat-Shamir challenger, in
observation order, and the sampled challenges.  The external proving
backend is abstract: D is the digest type, commit models
trace_to_merkle_caps and sample models the challenger, a deterministic
function of the observed digests. -/
structure ProofSession (D : Type) where
  observed : List D
  challenges : List Nat
deriving Repr

/-- Proof orchestration (stark_pixie_zkvm.rs generate_proof): simulate
(aborting on failure), generate and commit the three tables, let the
challenger observe the three commitments in the order
Program-Instructions, CPU, Memory, then sample 2 * num_challenges
challenges.  num_challenges models config.num_challenges of the external
StarkConfig.  The Memory generator failure (a Rust panic in the sources)
aborts the session. -/
def generate_proof {D : Type} (commit : List (List Nat) → D)
    (sample : List D → Nat → Nat) (num_challenges : Nat) (prog : Program) :
    Except Failure (ProofSession D) :=
  match PreflightSimulation.simulate prog with
  | .error e => .error e
  | .ok simulation =>
      let pi_trace := ProgramInstructionsStark.generate_trace prog
      let pi_comm_cap := commit (pi_trace.map rowFieldsPI)
      let cpu_trace := CPUStark.generate_trace simulation
      let cpu_comm_cap := commit (cpu_trace.map rowFieldsCpu)
      match MemoryStark.generate_trace simulation with
      | .error e => .error e
      | .ok mem_trace =>
          let mem_comm_cap := commit (mem_trace.map rowFieldsMem)
          let observed := [pi_comm_cap, cpu_comm_cap, mem_comm_cap]
          let challenges := (List.range (2 * num_challenges)).map (sample observed)
          .ok { observed, challenges }

/-- Property that exactly the last row of a simulation is halted: the last
row exists and is halted, and every row before it is not halted. -/
def lastRowOnlyHalted (sim : PreflightSimulation) : Prop :=
  sim.trace_rows.getLast?.map SimulationRow.is_halted = some true
    ∧ ∀ r ∈ sim.trace_rows.dropLast, r.is_halted = false

/-- Program dividing R0 by R1 while both registers hold zero. -/
def divProg : Program :=
  { entry_point := 0, code := [(0, .Div .R0 .R1), (1, .Halt)], memory_init := [] }

/-- Program loading one initialized byte and halting. -/
def lbHaltProg : Program :=
  { entry_point := 0, code := [(0, .Lb .R0 0x40), (1, .Halt)], memory_init := [(0x40, 5)] }

/-- Program loading from an address that is neither initialized nor ever
written. -/
def lbUninitProg : Program :=
  { entry_point := 0, code := [(0, .Lb .R0 0x40), (1, .Halt)], memory_init := [] }

/-- Program storing a byte to an address absent from the initial memory. -/
def sbFreshProg : Program :=
  { entry_point := 0, code := [(0, .Sb .R0 0x10), (1, .Halt)], memory_init := [] }

/-- Program whose only instruction is an unconditional self-jump. -/
def selfJumpProg : Program :=
  { entry_point := 0, code := [(0, .Jz .R0 0)], memory_init := [] }

/-- Program whose entry-point instruction is Halt and that has no
instruction after it. -/
def haltOnlyProg : Program :=
  { entry_point := 0, code := [(0, .Halt)], memory_init := [] }

/-- Program with an empty code map and nonempty initial memory. -/
def emptyProg : Program :=
  { entry_point := 0, code := [], memory_init := [(1, 9)] }

/-- Program engineered to halt after exactly MAX_CPU_CYCLES_ALLOWED + 1
rows: two counted loops of 249 increments each plus five straight-line
rows. -/
def longProg : Program :=
  { entry_point := 0
    code := [(0, .Lb .R1 0xF0), (1, .Lb .R0 0xF1), (2, .Add .R0 .R1), (3, .Jnz .R0 2),
             (4, .Lb .R0 0xF2), (5, .Add .R0 .R1), (6, .Jnz .R0 5), (7, .Lb .R0 0xF0),
             (8, .Halt)]
    memory_init := [(0xF0, 1), (0xF1, 7), (0xF2, 7)] }

/-- Program with three instructions, so that its Program-Instructions
table is padded from three rows to four and the padding row coincides
with the first semantic row. -/
def threeInstProg : Program :=
  { entry_point := 0, code := [(0, .Add .R0 .R0), (1, .Add .R0 .R0), (2, .Halt)]
    memory_init := [] }

/-- The same code map as lbHaltProg in the opposite order. -/
def lbHaltProgSwapped : Program :=
  { entry_point := 0, code := [(1, .Halt), (0, .Lb .R0 0x40)], memory_init := [(0x40, 5)] }

/-- The simulation produced by lbHaltProg (total by construction: the
fallback branch is unreachable). -/
def lbHaltSimVal : PreflightSimulation :=
  match PreflightSimulation.simulate lbHaltProg with
  | .ok s => s
  | .error _ => { memory_init := [], trace_rows := [] }

/-- The memory table produced from the lbHaltProg simulation. -/
def lbHaltMemVal : List MemRow :=
  match MemoryStark.generate_trace lbHaltSimVal with
  | .ok t => t
  | .error _ => []

/-- The simulation produced by lbUninitProg. -/
def lbUninitSimVal : PreflightSimulation :=
  match PreflightSimulation.simulate lbUninitProg with
  | .ok s => s
  | .error _ => { memory_init := [], trace_rows := [] }

/-- A concrete simulation row holding register values 3 and 9 at a shift
instruction, used to witness the shift semantics. -/
def shRow : SimulationRow :=
  { instruction := .Shl .R0 .R1
    clock := 1
    program_counter := 0
    is_halted := false
    registers := ⟨3, 9⟩
    memory_snapshot := [] }

/-- The row following shRow under lbHaltProg. -/
def shRowNext : SimulationRow :=
  match shRow.execute_one_cycle lbHaltProg with
  | .ok r => r
  | .error _ => shRow

/-- The first simulation row of lbHaltProg, written out. -/
def lbHaltRow1 : SimulationRow :=
  { instruction := .Lb .R0 0x40
    clock := 1
    program_counter := 0
    is_halted := false
    registers := ⟨0, 0⟩
    memory_snapshot := [(0x40, 5)] }

/-- Decidable equality for Except, so that concrete runs of the embedded
code can be checked by decide. -/
def exceptDecEq {ε α : Type} [DecidableEq ε] [DecidableEq α] : DecidableEq (Except ε α)
  | .error e, .error f =>
      if h : e = f then .isTrue (by rw [h]) else .isFalse (fun hh => h (by injection hh))
  | .error _, .ok _ => .isFalse (fun h => Except.noConfusion h)
  | .ok _, .error _ => .isFalse (fun h => Except.noConfusion h)
  | .ok a, .ok b =>
      if h : a = b then .isTrue (by rw [h]) else .isFalse (fun hh => h (by injection hh))

instance {ε α : Type} [DecidableEq ε] [DecidableEq α] : DecidableEq (Except ε α) :=
  exceptDecEq

/-- The list [n, n-1, ..., 1]: the clock values of a simulation trace in
reversed (most recent first) order. -/
def descend : Nat → List Nat
  | 0 => []
  | n + 1 => (n + 1) :: descend n

theorem lookup_mem {α : Type} {l : List (Nat × α)} {k : Nat} {v : α}
    (h : List.lookup k l = some v) : (k, v) ∈ l := by
  induction l with
  | nil => simp [List.lookup] at h
  | cons p t ih =>
      obtain ⟨a, b⟩ := p
      rw [List.lookup] at h
      by_cases hk : k = a
      · subst hk
        simp only [beq_self_eq_true] at h
        injection h with h'
        subst h'
        exact List.mem_cons_self _ _
      · have hne : (k == a) = false := by simpa using hk
        rw [hne] at h
        exact List.mem_cons_of_mem _ (ih h)

theorem descend_mem {n x : Nat} (h : x ∈ descend n) : 1 ≤ x ∧ x ≤ n := by
  induction n with
  | zero => simp [descend] at h
  | succ n ih =>
      rw [descend] at h
      rcases List.mem_cons.mp h with h1 | h2
      · subst h1; omega
      · have := ih h2; omega

theorem descend_nodup (n : Nat) : (descend n).Nodup := by
  induction n with
  | zero => simp [descend]
  | succ n ih =>
      rw [descend]
      refine List.nodup_cons.mpr ⟨?_, ih⟩
      intro hmem
      have := descend_mem hmem
      omega

theorem descend_length (n : Nat) : (descend n).length = n := by
  induction n with
  | zero => rfl
  | succ n ih => simp [descend, ih]

theorem npowAux_ge {n : Nat} :
    ∀ (fuel acc : Nat), n ≤ acc * 2 ^ fuel → n ≤ npowAux n acc fuel := by
  intro fuel
  induction fuel with
  | zero =>
      intro acc h
      simpa [npowAux] using h
  | succ fuel ih =>
      intro acc h
      rw [npowAux]
      by_cases hle : n ≤ acc
      · rw [if_pos hle]
        exact hle
      · rw [if_neg hle]
        apply ih
        rw [pow_succ] at h
        calc n ≤ acc * (2 ^ fuel * 2) := h
          _ = 2 * acc * 2 ^ fuel := by ring

theorem le_next_power_of_two (n : Nat) : n ≤ next_power_of_two n := by
  unfold next_power_of_two
  apply npowAux_ge
  have := Nat.lt_two_pow n
  omega

theorem applyInstruction_error {inst : Instruction} {pc0 : Nat} {regs : Regs} {mem : Mem}
    {e : Failure} (h : applyInstruction inst pc0 regs mem = .error e) :
    e = .divByZero ∧ ∃ a b, inst = .Div a b := by
  cases inst
  case Div a b =>
      simp only [applyInstruction] at h
      split at h
      · injection h with h'
        exact ⟨h'.symm, a, b, rfl⟩
      · simp at h
  all_goals simp [applyInstruction] at h

theorem exec_ok_facts {row row' : SimulationRow} {prog : Program}
    (h : row.execute_one_cycle prog = .ok row') :
    List.lookup row'.program_counter prog.code = some row'.instruction
      ∧ row'.clock = row.clock + 1
      ∧ row'.is_halted = (row'.instruction == Instruction.Halt) := by
  unfold SimulationRow.execute_one_cycle at h
  cases happ : applyInstruction row.instruction ((row.program_counter + 1) % 256)
      row.registers row.memory_snapshot with
  | error e => simp [happ] at h
  | ok t =>
      simp only [happ] at h
      unfold execStep at h
      cases hl : List.lookup t.1 prog.code with
      | none => simp [hl] at h
      | some instruction =>
          simp only [hl] at h
          injection h with h'
          subst h'
          exact ⟨hl, rfl, rfl⟩

theorem exec_err_facts {row : SimulationRow} {prog : Program} {e : Failure}
    (h : row.execute_one_cycle prog = .error e) :
    e = .instructionNotFound ∨ (e = .divByZero ∧ ∃ a b, row.instruction = .Div a b) := by
  unfold SimulationRow.execute_one_cycle at h
  cases happ : applyInstruction row.instruction ((row.program_counter + 1) % 256)
      row.registers row.memory_snapshot with
  | error e' =>
      simp only [happ] at h
      injection h with h'
      subst h'
      exact Or.inr (applyInstruction_error happ)
  | ok t =>
      simp only [happ] at h
      unfold execStep at h
      cases hl : List.lookup t.1 prog.code with
      | none =>
          simp only [hl] at h
          injection h with h'
          exact Or.inl h'.symm
      | some i => simp [hl] at h

theorem first_row_facts {prog : Program} {r : SimulationRow}
    (h : SimulationRow.generate_first_row prog = .ok r) :
    List.lookup r.program_counter prog.code = some r.instruction
      ∧ r.clock = 1 ∧ r.is_halted = false ∧ r.program_counter = prog.entry_point := by
  unfold SimulationRow.generate_first_row at h
  cases hl : List.lookup prog.entry_point prog.code with
  | none => simp [hl] at h
  | some i =>
      simp only [hl] at h
      injection h with h'
      subst h'
      exact ⟨hl, rfl, rfl, rfl⟩

theorem simLoop_ok_mem {prog : Program} :
    ∀ (fuel : Nat) (rows out : List SimulationRow),
      simLoop prog fuel rows = .ok out →
      ∀ r ∈ out, r ∈ rows ∨ ∃ r0 : SimulationRow, r0.execute_one_cycle prog = .ok r := by
  intro fuel
  induction fuel with
  | zero =>
      intro rows out h r hr
      cases rows with
      | nil =>
          simp only [simLoop] at h
          injection h with h'
          subst h'
          simp at hr
      | cons last rest =>
          simp only [simLoop] at h
          injection h with h'
          subst h'
          exact Or.inl hr
  | succ fuel ih =>
      intro rows out h r hr
      cases rows with
      | nil =>
          simp only [simLoop] at h
          injection h with h'
          subst h'
          simp at hr
      | cons last rest =>
          rw [simLoop] at h
          by_cases hcond : (last :: rest).length ≤ MAX_CPU_CYCLES_ALLOWED
              ∧ last.is_halted = false
          · rw [if_pos hcond] at h
            cases hexec : last.execute_one_cycle prog with
            | error e => simp [hexec] at h
            | ok next =>
                simp only [hexec] at h
                rcases ih _ _ h r hr with hmem | hstep
                · rcases List.mem_cons.mp hmem with h1 | h2
                  · exact Or.inr ⟨last, by rw [h1]; exact hexec⟩
                  · exact Or.inl h2
                · exact Or.inr hstep
          · rw [if_neg hcond] at h
            injection h with h'
            subst h'
            exact Or.inl hr

theorem simLoop_length {prog : Program} :
    ∀ (fuel : Nat) (rows out : List SimulationRow),
      simLoop prog fuel rows = .ok out →
      rows.length ≤ out.length
        ∧ (rows.length ≤ MAX_CPU_CYCLES_ALLOWED + 1 →
            out.length ≤ MAX_CPU_CYCLES_ALLOWED + 1) := by
  intro fuel
  induction fuel with
  | zero =>
      intro rows out h
      cases rows with
      | nil =>
          simp only [simLoop] at h
          injection h with h'
          subst h'
          exact ⟨Nat.le_refl _, fun hh => hh⟩
      | cons last rest =>
          simp only [simLoop] at h
          injection h with h'
          subst h'
          exact ⟨Nat.le_refl _, fun hh => hh⟩
  | succ fuel ih =>
      intro rows out h
      cases rows with
      | nil =>
          simp only [simLoop] at h
          injection h with h'
          subst h'
          exact ⟨Nat.le_refl _, fun hh => hh⟩
      | cons last rest =>
          rw [simLoop] at h
          by_cases hcond : (last :: rest).length ≤ MAX_CPU_CYCLES_ALLOWED
              ∧ last.is_halted = false
          · rw [if_pos hcond] at h
            cases hexec : last.execute_one_cycle prog with
            | error e => simp [hexec] at h
            | ok next =>
                simp only [hexec] at h
                have hrec := ih _ _ h
                refine ⟨?_, fun _ => ?_⟩
                · have := hrec.1
                  simp only [List.length_cons] at this ⊢
                  omega
                · apply hrec.2
                  have := hcond.1
                  simp only [List.length_cons] at this ⊢
                  omega
          · rw [if_neg hcond] at h
            injection h with h'
            subst h'
            exact ⟨Nat.le_refl _, fun hh => hh⟩

theorem simLoop_clocks {prog : Program} :
    ∀ (fuel : Nat) (rows out : List SimulationRow),
      simLoop prog fuel rows = .ok out →
      rows.map SimulationRow.clock = descend rows.length →
      out.map SimulationRow.clock = descend out.length := by
  intro fuel
  induction fuel with
  | zero =>
      intro rows out h hmap
      cases rows with
      | nil =>
          simp only [simLoop] at h
          injection h with h'
          subst h'
          exact hmap
      | cons last rest =>
          simp only [simLoop] at h
          injection h with h'
          subst h'
          exact hmap
  | succ fuel ih =>
      intro rows out h hmap
      cases rows with
      | nil =>
          simp only [simLoop] at h
          injection h with h'
          subst h'
          exact hmap
      | cons last rest =>
          rw [simLoop] at h
          by_cases hcond : (last :: rest).length ≤ MAX_CPU_CYCLES_ALLOWED
              ∧ last.is_halted = false
          · rw [if_pos hcond] at h
            cases hexec : last.execute_one_cycle prog with
            | error e => simp [hexec] at h
            | ok next =>
                simp only [hexec] at h
                apply ih _ _ h
                have hclk : next.clock = last.clock + 1 := (exec_ok_facts hexec).2.1
                simp only [List.length_cons, descend, List.map_cons] at hmap ⊢
                injection hmap with h1 h2
                rw [hclk, h1, h2]
          · rw [if_neg hcond] at h
            injection h with h'
            subst h'
            exact hmap

theorem simLoop_tail {prog : Program} :
    ∀ (fuel : Nat) (rows out : List SimulationRow),
      simLoop prog fuel rows = .ok out →
      (∀ r ∈ rows.tail, r.is_halted = false) →
      ∀ r ∈ out.tail, r.is_halted = false := by
  intro fuel
  induction fuel with
  | zero =>
      intro rows out h htl
      cases rows with
      | nil =>
          simp only [simLoop] at h
          injection h with h'
          subst h'
          exact htl
      | cons last rest =>
          simp only [simLoop] at h
          injection h with h'
          subst h'
          exact htl
  | succ fuel ih =>
      intro rows out h htl
      cases rows with
      | nil =>
          simp only [simLoop] at h
          injection h with h'
          subst h'
          exact htl
      | cons last rest =>
          rw [simLoop] at h
          by_cases hcond : (last :: rest).length ≤ MAX_CPU_CYCLES_ALLOWED
              ∧ last.is_halted = false
          · rw [if_pos hcond] at h
            cases hexec : last.execute_one_cycle prog with
            | error e => simp [hexec] at h
            | ok next =>
                simp only [hexec] at h
                apply ih _ _ h
                intro r hr
                rcases List.mem_cons.mp hr with h1 | h2
                · rw [h1]; exact hcond.2
                · exact htl r h2
          · rw [if_neg hcond] at h
            injection h with h'
            subst h'
            exact htl

theorem simLoop_err {prog : Program}
    (hnodiv : ∀ p ∈ prog.code, p.2.isDiv = false) :
    ∀ (fuel : Nat) (rows : List SimulationRow) (e : Failure),
      simLoop prog fuel rows = .error e →
      (∀ r ∈ rows, List.lookup r.program_counter prog.code = some r.instruction) →
      e = .instructionNotFound := by
  intro fuel
  induction fuel with
  | zero =>
      intro rows e h hlk
      cases rows <;> simp [simLoop] at h
  | succ fuel ih =>
      intro rows e h hlk
      cases rows with
      | nil => simp [simLoop] at h
      | cons last rest =>
          rw [simLoop] at h
          by_cases hcond : (last :: rest).length ≤ MAX_CPU_CYCLES_ALLOWED
              ∧ last.is_halted = false
          · rw [if_pos hcond] at h
            cases hexec : last.execute_one_cycle prog with
            | error e' =>
                simp only [hexec] at h
                injection h with h'
                subst h'
                rcases exec_err_facts hexec with h1 | ⟨_, a, b, hdiv⟩
                · exact h1
                · exfalso
                  have hmem := lookup_mem (hlk last (List.mem_cons_self _ _))
                  have := hnodiv _ hmem
                  rw [hdiv] at this
                  simp [Instruction.isDiv] at this
            | ok next =>
                simp only [hexec] at h
                apply ih _ _ h
                intro r hr
                rcases List.mem_cons.mp hr with h1 | h2
                · rw [h1]; exact (exec_ok_facts hexec).1
                · exact hlk r h2
          · rw [if_neg hcond] at h
            simp at h

theorem simulate_ok_inv {prog : Program} {sim : PreflightSimulation}
    (h : PreflightSimulation.simulate prog = .ok sim) :
    sim.memory_init = prog.memory_init ∧
    (sim.trace_rows = [] ∨
      ∃ first out, SimulationRow.generate_first_row prog = .ok first
        ∧ simLoop prog (MAX_CPU_CYCLES_ALLOWED + 1) [first] = .ok out
        ∧ (∃ last rest, out = last :: rest ∧ last.is_halted = true)
        ∧ sim.trace_rows = out.reverse) := by
  unfold PreflightSimulation.simulate at h
  by_cases hemp : prog.code.isEmpty
  · rw [if_pos hemp] at h
    injection h with h'
    subst h'
    exact ⟨rfl, Or.inl rfl⟩
  · rw [if_neg hemp] at h
    cases hfr : SimulationRow.generate_first_row prog with
    | error e => simp [hfr] at h
    | ok first =>
        simp only [hfr] at h
        cases hsl : simLoop prog (MAX_CPU_CYCLES_ALLOWED + 1) [first] with
        | error e => simp [hsl] at h
        | ok out =>
            simp only [hsl] at h
            cases out with
            | nil => simp [finishSim] at h
            | cons last rest =>
                simp only [finishSim] at h
                by_cases hh : last.is_halted = true
                · rw [if_pos hh] at h
                  injection h with h'
                  subst h'
                  exact ⟨rfl, Or.inr ⟨first, last :: rest, rfl, hsl,
                    ⟨last, rest, rfl, hh⟩, rfl⟩⟩
                · rw [if_neg hh] at h
                  simp at h

theorem simulate_rows_facts {prog : Program} {sim : PreflightSimulation}
    (h : PreflightSimulation.simulate prog = .ok sim) :
    (∀ r ∈ sim.trace_rows,
        List.lookup r.program_counter prog.code = some r.instruction)
      ∧ sim.trace_rows.map SimulationRow.clock
          = (descend sim.trace_rows.length).reverse := by
  rcases (simulate_ok_inv h).2 with hnil | ⟨first, out, hfr, hsl, _, htr⟩
  · rw [hnil]
    exact ⟨by intro r hr; simp at hr, rfl⟩
  · constructor
    · intro r hr
      rw [htr, List.mem_reverse] at hr
      rcases simLoop_ok_mem _ _ _ hsl r hr with hmem | ⟨r0, hstep⟩
      · have : r = first := by simpa using hmem
        rw [this]
        exact (first_row_facts hfr).1
      · exact (exec_ok_facts hstep).1
    · have hfirst : ([first].map SimulationRow.clock) = descend ([first].length) := by
        simp [descend, (first_row_facts hfr).2.1]
      have hout := simLoop_clocks _ _ _ hsl hfirst
      rw [htr, List.map_reverse, hout, List.length_reverse]

theorem simulate_clock_pos {prog : Program} {sim : PreflightSimulation}
    (h : PreflightSimulation.simulate prog = .ok sim) :
    ∀ r ∈ sim.trace_rows, 1 ≤ r.clock := by
  intro r hr
  have hmap := (simulate_rows_facts h).2
  have : r.clock ∈ sim.trace_rows.map SimulationRow.clock := List.mem_map_of_mem _ hr
  rw [hmap, List.mem_reverse] at this
  exact (descend_mem this).1

theorem simulate_clock_nodup {prog : Program} {sim : PreflightSimulation}
    (h : PreflightSimulation.simulate prog = .ok sim) :
    (sim.trace_rows.map SimulationRow.clock).Nodup := by
  rw [(simulate_rows_facts h).2]
  exact List.nodup_reverse.mpr (descend_nodup _)

theorem countP_filterMap_eq {α β : Type} (f : α → Option β) (p : β → Bool) (l : List α) :
    (l.filterMap f).countP p = l.countP (fun a => ((f a).map p).getD false) := by
  induction l with
  | nil => rfl
  | cons a t ih =>
      cases hfa : f a with
      | none => simp [List.filterMap_cons, hfa, List.countP_cons, ih]
      | some b => simp [List.filterMap_cons, hfa, List.countP_cons, ih]

theorem countP_eq_one_unique {α β : Type} (f : α → β) (p : α → Bool) :
    ∀ (l : List α) (x : α), (l.map f).Nodup → x ∈ l → p x = true →
      (∀ y ∈ l, p y = true → f y = f x) → l.countP p = 1 := by
  intro l
  induction l with
  | nil => intro x _ hx; simp at hx
  | cons a t ih =>
      intro x hnd hx hpx hkey
      rw [List.map_cons, List.nodup_cons] at hnd
      rw [List.countP_cons]
      by_cases hpa : p a = true
      · have hfax : f a = f x := hkey a (List.mem_cons_self _ _) hpa
        have ht0 : t.countP p = 0 := by
          rw [List.countP_eq_zero]
          intro y hy hpy
          have h1 : f y = f a :=
            (hkey y (List.mem_cons_of_mem _ hy) hpy).trans hfax.symm
          exact hnd.1 (h1 ▸ List.mem_map_of_mem f hy)
        simp [ht0, hpa]
      · have hxt : x ∈ t := by
          rcases List.mem_cons.mp hx with h1 | h2
          · exfalso; rw [h1] at hpx; exact hpa hpx
          · exact h2
        have hrec := ih x hnd.2 hxt hpx
          (fun y hy hpy => hkey y (List.mem_cons_of_mem _ hy) hpy)
        simp [hrec, hpa]

theorem memEventRows_eq {rows : List SimulationRow} {evs : List MemRow}
    (h : memEventRows rows = .ok evs) : evs = rows.filterMap eventRowOf := by
  induction rows generalizing evs with
  | nil =>
      simp only [memEventRows] at h
      injection h with h'
      simp [← h']
  | cons r rest ih =>
      rw [memEventRows] at h
      cases hinfo : memOpInfo r.instruction with
      | none =>
          simp only [hinfo] at h
          simp [List.filterMap_cons, eventRowOf, hinfo, ih h]
      | some t =>
          obtain ⟨lb, sb, addr⟩ := t
          simp only [hinfo] at h
          cases hlk : List.lookup addr r.memory_snapshot with
          | none => simp [hlk] at h
          | some v =>
              simp only [hlk] at h
              cases hrec : memEventRows rest with
              | error e => simp [hrec] at h
              | ok tl =>
                  simp only [hrec] at h
                  injection h with h'
                  rw [← h', List.filterMap_cons]
                  have hev : eventRowOf r = some
                      { addr, clk := r.clock, value := v
                        is_lb := if lb then 1 else 0
                        is_sb := if sb then 1 else 0
                        is_init := 0, is_exec := 1 } := by
                    simp [eventRowOf, hinfo, hlk]
                  rw [hev, ih hrec]

theorem memEventRows_lookup {rows : List SimulationRow} {evs : List MemRow}
    (h : memEventRows rows = .ok evs) :
    ∀ r ∈ rows, ∀ lb sb a, memOpInfo r.instruction = some (lb, sb, a) →
      ∃ v, List.lookup a r.memory_snapshot = some v := by
  induction rows generalizing evs with
  | nil => intro r hr; simp at hr
  | cons r0 rest ih =>
      intro r hr lb sb a hinfo
      rw [memEventRows] at h
      rcases List.mem_cons.mp hr with h1 | h2
      · subst h1
        simp only [hinfo] at h
        cases hlk : List.lookup a r.memory_snapshot with
        | none => simp [hlk] at h
        | some v => exact ⟨v, rfl⟩
      · cases hinfo0 : memOpInfo r0.instruction with
        | none =>
            simp only [hinfo0] at h
            exact ih h r h2 lb sb a hinfo
        | some t =>
            obtain ⟨lb0, sb0, a0⟩ := t
            simp only [hinfo0] at h
            cases hlk0 : List.lookup a0 r0.memory_snapshot with
            | none => simp [hlk0] at h
            | some v0 =>
                simp only [hlk0] at h
                cases hrec : memEventRows rest with
                | error e => simp [hrec] at h
                | ok tl => exact ih hrec r h2 lb sb a hinfo

theorem first_row_err {prog : Program} {e : Failure}
    (h : SimulationRow.generate_first_row prog = .error e) :
    e = .instructionNotFound := by
  unfold SimulationRow.generate_first_row at h
  cases hl : List.lookup prog.entry_point prog.code with
  | none =>
      simp only [hl] at h
      injection h with h'
      exact h'.symm
  | some i => simp [hl] at h

theorem finishSim_err {prog : Program} {out : List SimulationRow} {e : Failure}
    (h : finishSim prog out = .error e) : e = .cycleLimitExceeded := by
  cases out with
  | nil =>
      simp only [finishSim] at h
      injection h with h'
      exact h'.symm
  | cons last rest =>
      simp only [finishSim] at h
      by_cases hh : last.is_halted = true
      · rw [if_pos hh] at h
        simp at h
      · rw [if_neg hh] at h
        injection h with h'
        exact h'.symm

theorem simLoop_first_step {prog : Program} {first : SimulationRow}
    {out : List SimulationRow}
    (h : simLoop prog (MAX_CPU_CYCLES_ALLOWED + 1) [first] = .ok out)
    (hnh : first.is_halted = false) : 2 ≤ out.length := by
  rw [simLoop] at h
  rw [if_pos ⟨by simp [MAX_CPU_CYCLES_ALLOWED], hnh⟩] at h
  cases hexec : first.execute_one_cycle prog with
  | error e => simp [hexec] at h
  | ok next =>
      simp only [hexec] at h
      have := (simLoop_length _ _ _ h).1
      simpa using this

theorem simLoop_one_err {prog : Program} {first : SimulationRow} {e : Failure}
    (hnh : first.is_halted = false)
    (hexec : first.execute_one_cycle prog = .error e) :
    simLoop prog (MAX_CPU_CYCLES_ALLOWED + 1) [first] = .error e := by
  rw [simLoop.eq_def]
  simp only [List.length_cons, List.length_nil]
  rw [if_pos ⟨by simp [MAX_CPU_CYCLES_ALLOWED], hnh⟩]
  simp only [hexec]

theorem eventRowOf_clk {y : SimulationRow} {m : MemRow} (h : eventRowOf y = some m) :
    m.clk = y.clock := by
  unfold eventRowOf at h
  cases hinfo : memOpInfo y.instruction with
  | none => simp [hinfo] at h
  | some t =>
      obtain ⟨lb, sb, a⟩ := t
      simp only [hinfo] at h
      cases hlk : List.lookup a y.memory_snapshot with
      | none => simp [hlk] at h
      | some v =>
          simp only [hlk, Option.map_some'] at h
          injection h with h'
          rw [← h']

/-- Claim C1 counterexample: simulate is not total except for
InstructionNotFound and CycleLimitExceeded.  On the concrete program
divProg, whose entry instruction divides R0 by R1 while both registers
hold zero, the Div arm of execute_one_cycle calls wrapping_div with a
zero divisor, which is a Rust panic; the embedded simulate fails with the
divByZero failure, which is neither of the two claimed failure modes. -/
theorem claim_C1_counterexample :
    PreflightSimulation.simulate divProg = .error .divByZero
      ∧ Failure.divByZero ≠ Failure.instructionNotFound
      ∧ Failure.divByZero ≠ Failure.cycleLimitExceeded :=
  ⟨rfl, by decide, by decide⟩

/-- Claim C1 (amended): for every program whose code map contains no Div
instruction, simulate is deterministic (it is a function) and total except
for the two failure modes InstructionNotFound and CycleLimitExceeded;
wrapping add/sub/mul and the tentative next program counter (current + 1,
wrapping modulo 256) are defined for all register and program-counter
values.  A Div whose divisor register holds zero panics, so it is excluded
by hypothesis. -/
theorem claim_C1_amended (prog : Program)
    (hnodiv : ∀ p ∈ prog.code, p.2.isDiv = false) :
    (∃ s, PreflightSimulation.simulate prog = .ok s)
      ∨ PreflightSimulation.simulate prog = .error .instructionNotFound
      ∨ PreflightSimulation.simulate prog = .error .cycleLimitExceeded := by
  cases hres : PreflightSimulation.simulate prog with
  | ok s => exact Or.inl ⟨s, rfl⟩
  | error e =>
      have hchar : e = .instructionNotFound ∨ e = .cycleLimitExceeded := by
        unfold PreflightSimulation.simulate at hres
        by_cases hemp : prog.code.isEmpty = true
        · rw [if_pos hemp] at hres
          simp at hres
        · rw [if_neg hemp] at hres
          cases hfr : SimulationRow.generate_first_row prog with
          | error e' =>
              simp only [hfr] at hres
              injection hres with h'
              refine Or.inl ?_
              rw [← h']
              exact first_row_err hfr
          | ok first =>
              simp only [hfr] at hres
              cases hsl : simLoop prog (MAX_CPU_CYCLES_ALLOWED + 1) [first] with
              | error e' =>
                  simp only [hsl] at hres
                  injection hres with h'
                  refine Or.inl ?_
                  rw [← h']
                  apply simLoop_err hnodiv _ _ _ hsl
                  intro r hr
                  have hr1 : r = first := by simpa using hr
                  rw [hr1]
                  exact (first_row_facts hfr).1
              | ok out =>
                  simp only [hsl] at hres
                  exact Or.inr (finishSim_err hres)
      rcases hchar with h1 | h1
      · exact Or.inr (Or.inl (by rw [h1]))
      · exact Or.inr (Or.inr (by rw [h1]))

/-- Claim C1 witness: the concrete Div-free program lbHaltProg satisfies
the amended totality statement. -/
theorem claim_C1_witness :
    (∃ s, PreflightSimulation.simulate lbHaltProg = .ok s)
      ∨ PreflightSimulation.simulate lbHaltProg = .error .instructionNotFound
      ∨ PreflightSimulation.simulate lbHaltProg = .error .cycleLimitExceeded :=
  claim_C1_amended lbHaltProg (by decide)

set_option maxRecDepth 100000 in
/-- Claim C3 (code bug): on the concrete program lbUninitProg, which loads
from an address that is neither initialized nor ever written, the
simulator succeeds (uninitialized memory reads as zero), but Memory-table
generation does not: the expect call of MemoryStark::generate_trace,
modelled as the memValueMissing failure, panics because the load address
is absent from the memory snapshot of the load row.  The claim says
table generation is total on successful simulations and emits a row for
such a load. -/
theorem claim_C3_bug :
    (PreflightSimulation.simulate lbUninitProg).isOk = true
      ∧ (PreflightSimulation.simulate lbUninitProg).toOption.map
          MemoryStark.generate_trace = some (.error .memValueMissing) :=
  ⟨rfl, rfl⟩

set_option maxRecDepth 100000 in
/-- Claim C4 counterexample: the row count of a successful simulation is
not bounded by MAX_CPU_CYCLES_ALLOWED = 1000.  The concrete program
longProg simulates successfully with exactly 1001 rows, because the loop
condition of simulate admits one more iteration when the row count equals
the maximum. -/
theorem claim_C4_counterexample :
    (PreflightSimulation.simulate longProg).toOption.map
        (fun s => s.trace_rows.length) = some (MAX_CPU_CYCLES_ALLOWED + 1)
      ∧ ¬ (MAX_CPU_CYCLES_ALLOWED + 1 ≤ MAX_CPU_CYCLES_ALLOWED) :=
  ⟨rfl, by decide⟩

set_option maxRecDepth 100000 in
/-- Claim C4 (amended): simulate terminates on every program; a
successful simulation has at most MAX_CPU_CYCLES_ALLOWED + 1 = 1001 rows
(the loop admits one final iteration once the row count reaches the
maximum), and the program whose only instruction is an unconditional
self-jump fails with CycleLimitExceeded rather than hanging. -/
theorem claim_C4_amended :
    (∀ (prog : Program) (sim : PreflightSimulation),
        PreflightSimulation.simulate prog = .ok sim →
        sim.trace_rows.length ≤ MAX_CPU_CYCLES_ALLOWED + 1)
      ∧ PreflightSimulation.simulate selfJumpProg = .error .cycleLimitExceeded := by
  constructor
  · intro prog sim h
    rcases (simulate_ok_inv h).2 with hnil | ⟨first, out, _, hsl, _, htr⟩
    · rw [hnil]
      simp
    · have hb := (simLoop_length _ _ _ hsl).2 (by simp [MAX_CPU_CYCLES_ALLOWED])
      rw [htr, List.length_reverse]
      exact hb
  · rfl

/-- Claim C4 witness: the amended row bound applied to the concrete
program lbHaltProg and its simulation. -/
theorem claim_C4_witness :
    lbHaltSimVal.trace_rows.length ≤ MAX_CPU_CYCLES_ALLOWED + 1 :=
  claim_C4_amended.1 lbHaltProg lbHaltSimVal rfl

/-- Claim C7: for every Shl/Shr instruction and register state, the named
register is shifted by the amount held in the second named register
(Regs.get, the register contents, not Register.index), the shift amount
is normalized by the single uniform policy of wrapping_shl/wrapping_shr,
namely reduction modulo the 8-bit width, the result wraps to 8 bits, and
the shift itself never fails: the only possible failure of the cycle is
the subsequent InstructionNotFound lookup. -/
theorem claim_C7_shift (row : SimulationRow) (prog : Program) (r a : Register) :
    (row.instruction = .Shl r a →
      ∀ row', row.execute_one_cycle prog = .ok row' →
        row'.registers = row.registers.set r
          ((row.registers.get r * 2 ^ (row.registers.get a % 8)) % 256))
      ∧ (row.instruction = .Shr r a →
        ∀ row', row.execute_one_cycle prog = .ok row' →
          row'.registers = row.registers.set r
            ((row.registers.get r % 256) / 2 ^ (row.registers.get a % 8)))
      ∧ ((row.instruction = .Shl r a ∨ row.instruction = .Shr r a) →
        ∀ e, row.execute_one_cycle prog = .error e → e = .instructionNotFound) := by
  refine ⟨?_, ?_, ?_⟩
  · intro hinst row' h
    unfold SimulationRow.execute_one_cycle at h
    rw [hinst] at h
    simp only [applyInstruction] at h
    unfold execStep at h
    cases hl : List.lookup ((row.program_counter + 1) % 256) prog.code with
    | none => simp [hl] at h
    | some i =>
        simp only [hl] at h
        injection h with h'
        rw [← h']
        simp [wShl]
  · intro hinst row' h
    unfold SimulationRow.execute_one_cycle at h
    rw [hinst] at h
    simp only [applyInstruction] at h
    unfold execStep at h
    cases hl : List.lookup ((row.program_counter + 1) % 256) prog.code with
    | none => simp [hl] at h
    | some i =>
        simp only [hl] at h
        injection h with h'
        rw [← h']
        simp [wShr]
  · intro hor e herr
    rcases exec_err_facts herr with h1 | ⟨_, a', b', hdiv⟩
    · exact h1
    · exfalso
      rcases hor with hinst | hinst <;> rw [hinst] at hdiv <;> simp at hdiv

/-- Claim C7 witness: the shift semantics applied to the concrete row
shRow (register values 3 and 9, so the masked shift amount is 1). -/
theorem claim_C7_witness :
    shRowNext.registers = shRow.registers.set .R0
      ((shRow.registers.get .R0 * 2 ^ (shRow.registers.get .R1 % 8)) % 256) :=
  (claim_C7_shift shRow lbHaltProg .R0 .R1).1 rfl shRowNext rfl

/-- Claim C8 counterexample: a successful simulation need not have a
halted last row.  The empty program simulates successfully with zero
rows, so there is no last row at all, contradicting the claim as stated
for every successful simulation. -/
theorem claim_C8_counterexample :
    PreflightSimulation.simulate emptyProg
        = .ok { memory_init := [(1, 9)], trace_rows := [] }
      ∧ ¬ lastRowOnlyHalted { memory_init := [(1, 9)], trace_rows := [] } := by
  refine ⟨rfl, fun hcon => ?_⟩
  rcases hcon with ⟨h1, _⟩
  simp at h1

/-- Claim C8 (amended): in every successful simulation with at least one
row, exactly the last row has halted = true: the final row is halted and
no earlier row is. -/
theorem claim_C8_amended (prog : Program) (sim : PreflightSimulation)
    (h : PreflightSimulation.simulate prog = .ok sim)
    (hne : sim.trace_rows ≠ []) : lastRowOnlyHalted sim := by
  rcases (simulate_ok_inv h).2 with hnil |
    ⟨first, out, hfr, hsl, ⟨last, rest, hout, hhalt⟩, htr⟩
  · exact absurd hnil hne
  · constructor
    · rw [htr, hout, List.getLast?_reverse]
      simp [hhalt]
    · intro r hr
      rw [htr, hout] at hr
      have hdrop : (last :: rest).reverse.dropLast = rest.reverse := by
        rw [List.reverse_cons, List.dropLast_concat]
      rw [hdrop, List.mem_reverse] at hr
      have htail := simLoop_tail _ _ _ hsl (by intro r' hr'; simp at hr')
      rw [hout] at htail
      exact htail r hr

/-- Claim C8 witness: the amended halting invariant on the concrete
simulation of lbHaltProg. -/
theorem claim_C8_witness : lastRowOnlyHalted lbHaltSimVal :=
  claim_C8_amended lbHaltProg lbHaltSimVal rfl (by decide)

/-- Claim C10: for every program whose entry-point instruction is Halt,
the first row is created with halted = false, so simulate never returns a
one-row simulation; the Halt executes as a no-op and the instruction at
entry_point + 1 is looked up, and when no instruction exists there
simulate fails with InstructionNotFound. -/
theorem claim_C10_halt_entry (prog : Program)
    (hhalt : List.lookup prog.entry_point prog.code = some .Halt) :
    (∀ r, SimulationRow.generate_first_row prog = .ok r → r.is_halted = false)
      ∧ (∀ sim, PreflightSimulation.simulate prog = .ok sim →
          sim.trace_rows.length ≠ 1)
      ∧ (List.lookup ((prog.entry_point + 1) % 256) prog.code = none →
          PreflightSimulation.simulate prog = .error .instructionNotFound) := by
  have hne : prog.code.isEmpty ≠ true := by
    intro hemp
    rw [List.isEmpty_iff] at hemp
    rw [hemp] at hhalt
    simp [List.lookup] at hhalt
  refine ⟨fun r h => (first_row_facts h).2.2.1, ?_, ?_⟩
  · intro sim hsim
    rcases (simulate_ok_inv hsim).2 with hnil | ⟨first, out, hfr, hsl, _, htr⟩
    · rw [hnil]
      simp
    · have h2 := simLoop_first_step hsl (first_row_facts hfr).2.2.1
      rw [htr, List.length_reverse]
      omega
  · intro hnone
    unfold PreflightSimulation.simulate
    rw [if_neg hne]
    have hfr : SimulationRow.generate_first_row prog = .ok
        { instruction := .Halt
          clock := 1
          program_counter := prog.entry_point
          is_halted := false
          registers := ⟨0, 0⟩
          memory_snapshot := prog.memory_init } := by
      unfold SimulationRow.generate_first_row
      rw [hhalt]
    have hexec : SimulationRow.execute_one_cycle
        { instruction := .Halt
          clock := 1
          program_counter := prog.entry_point
          is_halted := false
          registers := ⟨0, 0⟩
          memory_snapshot := prog.memory_init } prog
        = .error .instructionNotFound := by
      unfold SimulationRow.execute_one_cycle
      simp only [applyInstruction]
      unfold execStep
      simp only [hnone]
    simp only [hfr, simLoop_one_err rfl hexec]

/-- Claim C10 witness: the concrete one-instruction program whose entry
instruction is Halt fails with InstructionNotFound. -/
theorem claim_C10_witness :
    PreflightSimulation.simulate haltOnlyProg = .error .instructionNotFound :=
  (claim_C10_halt_entry haltOnlyProg (by decide)).2.2 (by decide)

theorem onehot_facts (i : Instruction) :
    i.one_hot_encode_and_apply.length = NUM_OPCODE_ONEHOT
      ∧ i.one_hot_encode_and_apply.countP (fun x => x == 1) = 1
      ∧ i.one_hot_encode_and_apply.getD i.get_opcode 0 = 1
      ∧ ∀ j < NUM_OPCODE_ONEHOT, j ≠ i.get_opcode →
          i.one_hot_encode_and_apply.getD j 0 = 0 := by
  cases i <;>
    (dsimp only [Instruction.one_hot_encode_and_apply, Instruction.get_opcode]; decide)

/-- Claim C5: every is-executed row of the CPU table comes from a
simulation row, its one-hot block has one column per opcode
(NUM_OPCODE_ONEHOT = 11 columns) with exactly one column set, namely the
one at the instruction stable opcode index; opcodes are assigned
contiguously from zero over all instruction variants (every opcode is
below 11 and every value below 11 is some instruction opcode). -/
theorem claim_C5_onehot (sim : PreflightSimulation) (cr : CpuRow)
    (hcr : cr ∈ CPUStark.generate_trace sim) (hexec : cr.is_exec = 1) :
    (∃ row, row ∈ sim.trace_rows ∧ cr = cpuRowOf row
      ∧ cr.onehot.length = NUM_OPCODE_ONEHOT
      ∧ cr.onehot.countP (fun x => x == 1) = 1
      ∧ cr.onehot.getD row.instruction.get_opcode 0 = 1
      ∧ ∀ j < NUM_OPCODE_ONEHOT, j ≠ row.instruction.get_opcode →
          cr.onehot.getD j 0 = 0)
      ∧ (∀ i : Instruction, i.get_opcode < NUM_OPCODE_ONEHOT)
      ∧ (∀ k < NUM_OPCODE_ONEHOT, ∃ i : Instruction, i.get_opcode = k) := by
  refine ⟨?_, ?_, ?_⟩
  · unfold CPUStark.generate_trace padTo at hcr
    rcases List.mem_append.mp hcr with hreal | hpad
    · obtain ⟨row, hrow, hcrow⟩ := List.mem_map.mp hreal
      refine ⟨row, hrow, hcrow.symm, ?_, ?_, ?_, ?_⟩
      · rw [← hcrow]
        exact (onehot_facts row.instruction).1
      · rw [← hcrow]
        exact (onehot_facts row.instruction).2.1
      · rw [← hcrow]
        exact (onehot_facts row.instruction).2.2.1
      · rw [← hcrow]
        exact (onehot_facts row.instruction).2.2.2
    · exfalso
      have : cr = cpuZeroRow := List.eq_of_mem_replicate hpad
      rw [this] at hexec
      simp [cpuZeroRow] at hexec
  · intro i
    cases i <;> (dsimp only [Instruction.get_opcode]; decide)
  · intro k hk
    have hk11 : k < 11 := hk
    interval_cases k
    · exact ⟨.Add .R0 .R0, rfl⟩
    · exact ⟨.Sub .R0 .R0, rfl⟩
    · exact ⟨.Mul .R0 .R0, rfl⟩
    · exact ⟨.Div .R0 .R0, rfl⟩
    · exact ⟨.Shl .R0 .R0, rfl⟩
    · exact ⟨.Shr .R0 .R0, rfl⟩
    · exact ⟨.Lb .R0 0, rfl⟩
    · exact ⟨.Sb .R0 0, rfl⟩
    · exact ⟨.Halt, rfl⟩
    · exact ⟨.Jz .R0 0, rfl⟩
    · exact ⟨.Jnz .R0 0, rfl⟩

/-- Claim C5 witness: the one-hot invariants applied to the concrete CPU
row of the first simulation row of lbHaltProg; the projected conjunct
states the contiguous opcode range. -/
theorem claim_C5_witness :
    ∃ row, row ∈ lbHaltSimVal.trace_rows ∧ cpuRowOf lbHaltRow1 = cpuRowOf row
      ∧ (cpuRowOf lbHaltRow1).onehot.length = NUM_OPCODE_ONEHOT
      ∧ (cpuRowOf lbHaltRow1).onehot.countP (fun x => x == 1) = 1
      ∧ (cpuRowOf lbHaltRow1).onehot.getD row.instruction.get_opcode 0 = 1
      ∧ ∀ j < NUM_OPCODE_ONEHOT, j ≠ row.instruction.get_opcode →
          (cpuRowOf lbHaltRow1).onehot.getD j 0 = 0 :=
  (claim_C5_onehot lbHaltSimVal (cpuRowOf lbHaltRow1) (by decide) rfl).1

/-- Claim C6 counterexample: the Program-Instructions table has no
is-real-row filter distinguishing semantic rows from padding.  The table
declared in the sources has exactly the two columns program counter and
instruction data (PI_NUMBER_OF_COLS = 2), and for the concrete
three-instruction program threeInstProg the generated table is padded
from three rows to four with an all-zero row identical to the first
semantic row, so no column distinguishes them. -/
theorem claim_C6_counterexample :
    ProgramInstructionsStark.generate_trace threeInstProg
        = [{ program_counter := 0, instruction_data := 0 },
           { program_counter := 1, instruction_data := 0 },
           { program_counter := 2, instruction_data := 8 },
           { program_counter := 0, instruction_data := 0 }]
      ∧ (piRealRows threeInstProg).length = 3
      ∧ PI_NUMBER_OF_COLS = 2 :=
  ⟨rfl, rfl, rfl⟩

/-- Claim C6 (amended): the Program-Instructions table generator produces
one row per (address, instruction) pair of the code map, carrying the
program counter and the instruction opcode, order-independently (a
permutation of the code map permutes the semantic rows), padded with
all-zero rows to the next power of two; the declared layout has only
those two columns and no is-real-row filter column. -/
theorem claim_C6_table (prog prog2 : Program) (hperm : prog.code.Perm prog2.code) :
    ProgramInstructionsStark.generate_trace prog = padTo (piRealRows prog) piZeroRow
      ∧ (piRealRows prog).length = prog.code.length
      ∧ (∀ p ∈ prog.code,
          ({ program_counter := p.1, instruction_data := p.2.get_opcode } : PIRow)
            ∈ piRealRows prog)
      ∧ (piRealRows prog).Perm (piRealRows prog2)
      ∧ (ProgramInstructionsStark.generate_trace prog).length
          = next_power_of_two prog.code.length := by
  refine ⟨rfl, List.length_map _ _, ?_, hperm.map _, ?_⟩
  · intro p hp
    exact List.mem_map_of_mem _ hp
  · unfold ProgramInstructionsStark.generate_trace padTo
    rw [List.length_append, List.length_replicate]
    have hlen : (piRealRows prog).length = prog.code.length := List.length_map _ _
    rw [hlen, Nat.add_sub_cancel' (le_next_power_of_two _)]

/-- Claim C6 witness: the order-independence conjunct applied to the two
concrete programs with permuted code maps. -/
theorem claim_C6_witness :
    (piRealRows lbHaltProg).Perm (piRealRows lbHaltProgSwapped) :=
  (claim_C6_table lbHaltProg lbHaltProgSwapped (by decide)).2.2.2.1

/-- Claim C9 counterexample: generate_proof does not always reach the
transcript and challenge phases after a successful simulation.  On the
concrete program sbFreshProg, which stores to an address absent from the
initial memory, the simulator succeeds but the Memory-table generator
panics (memValueMissing), aborting the session before any challenge is
derived. -/
theorem claim_C9_counterexample :
    generate_proof (fun _ => (0 : Nat)) (fun _ _ => 0) 2 sbFreshProg
        = .error .memValueMissing
      ∧ (PreflightSimulation.simulate sbFreshProg).isOk = true :=
  ⟨rfl, rfl⟩

/-- Claim C9 (amended): generate_proof runs the proving session in strict
order: it simulates first and any simulator failure aborts the whole
session with the same error; when simulation succeeds and the
Memory-table generator also succeeds, the session observes exactly the
three table commitments in the fixed order Program-Instructions, CPU,
Memory, and derives exactly 2 * num_challenges challenges from the
transcript so observed. -/
theorem claim_C9_orchestration {D : Type} (commit : List (List Nat) → D)
    (sample : List D → Nat → Nat) (num_challenges : Nat) (prog : Program) :
    (∀ e, PreflightSimulation.simulate prog = .error e →
        generate_proof commit sample num_challenges prog = .error e)
      ∧ (∀ sim mt, PreflightSimulation.simulate prog = .ok sim →
          MemoryStark.generate_trace sim = .ok mt →
          generate_proof commit sample num_challenges prog = .ok
            { observed :=
                [commit ((ProgramInstructionsStark.generate_trace prog).map rowFieldsPI),
                 commit ((CPUStark.generate_trace sim).map rowFieldsCpu),
                 commit (mt.map rowFieldsMem)]
              challenges := (List.range (2 * num_challenges)).map (sample
                [commit ((ProgramInstructionsStark.generate_trace prog).map rowFieldsPI),
                 commit ((CPUStark.generate_trace sim).map rowFieldsCpu),
                 commit (mt.map rowFieldsMem)]) }) := by
  constructor
  · intro e he
    unfold generate_proof
    simp only [he]
  · intro sim mt hs hm
    unfold generate_proof
    simp only [hs, hm]

/-- Claim C9 witness: the orchestration contract applied to the concrete
program lbHaltProg with a concrete commitment function (the row count of
the committed trace) and challenge sampler. -/
theorem claim_C9_witness :
    generate_proof (fun l => l.length) (fun _ _ => 7) 2 lbHaltProg = .ok
      { observed :=
          [(ProgramInstructionsStark.generate_trace lbHaltProg).map rowFieldsPI |>.length,
           (CPUStark.generate_trace lbHaltSimVal).map rowFieldsCpu |>.length,
           lbHaltMemVal.map rowFieldsMem |>.length]
        challenges := (List.range (2 * 2)).map ((fun _ _ => 7)
          [(ProgramInstructionsStark.generate_trace lbHaltProg).map rowFieldsPI |>.length,
           (CPUStark.generate_trace lbHaltSimVal).map rowFieldsCpu |>.length,
           lbHaltMemVal.map rowFieldsMem |>.length]) } :=
  (claim_C9_orchestration (fun l => l.length) (fun _ _ => 7) 2 lbHaltProg).2
    lbHaltSimVal lbHaltMemVal rfl rfl

set_option maxRecDepth 100000 in
/-- Claim C2 counterexample: the three tables cannot always be generated
from a successful simulation, so the cross-table contract does not hold
for every program that simulates successfully.  The concrete program
lbUninitProg simulates successfully, but Memory-table generation fails
(the expect panic on a load from an absent address), so no Memory table
exists for the links to hold on. -/
theorem claim_C2_counterexample :
    PreflightSimulation.simulate lbUninitProg = .ok lbUninitSimVal
      ∧ MemoryStark.generate_trace lbUninitSimVal = .error .memValueMissing :=
  ⟨rfl, rfl⟩

/-- Claim C2 (amended): for every program with a duplicate-free code map
that simulates successfully and whose Memory-table generation also
succeeds, the tables from that same simulation are linked by
construction: every is-executed CPU row comes from a simulation row and
matches exactly one semantic (pre-padding) Program-Instructions row on
(address, opcode); and for every load/store CPU row there is exactly one
Memory-table row agreeing on (address, clock, value), where the value is
the memory value observed at that point in the simulation. -/
theorem claim_C2_links (prog : Program) (sim : PreflightSimulation) (mt : List MemRow)
    (hkeys : (prog.code.map Prod.fst).Nodup)
    (hsim : PreflightSimulation.simulate prog = .ok sim)
    (hmem : MemoryStark.generate_trace sim = .ok mt) :
    ∀ cr ∈ CPUStark.generate_trace sim, cr.is_exec = 1 →
      ∃ row, row ∈ sim.trace_rows ∧ cr = cpuRowOf row
        ∧ (piRealRows prog).countP
            (fun p => decide (p.program_counter = row.program_counter
              ∧ p.instruction_data = row.instruction.get_opcode)) = 1
        ∧ ∀ lb sb a, memOpInfo row.instruction = some (lb, sb, a) →
            ∃ v, List.lookup a row.memory_snapshot = some v
              ∧ mt.countP (fun m => decide (m.addr = a ∧ m.clk = row.clock
                  ∧ m.value = v)) = 1 := by
  intro cr hcr hexec
  unfold CPUStark.generate_trace padTo at hcr
  rcases List.mem_append.mp hcr with hreal | hpad
  swap
  · exfalso
    have hz : cr = cpuZeroRow := List.eq_of_mem_replicate hpad
    rw [hz] at hexec
    simp [cpuZeroRow] at hexec
  obtain ⟨row, hrow, hcrow⟩ := List.mem_map.mp hreal
  refine ⟨row, hrow, hcrow.symm, ?_, ?_⟩
  · have hlk := (simulate_rows_facts hsim).1 row hrow
    have hmemc := lookup_mem hlk
    unfold piRealRows
    rw [List.countP_map]
    apply countP_eq_one_unique Prod.fst _ prog.code
      (row.program_counter, row.instruction) hkeys hmemc
    · simp
    · intro y hy hpy
      simp only [Function.comp_apply, decide_eq_true_eq] at hpy
      exact hpy.1
  · intro lb sb a hinfo
    unfold MemoryStark.generate_trace at hmem
    cases hevs : memEventRows sim.trace_rows with
    | error e => simp [hevs] at hmem
    | ok evs =>
        simp only [hevs] at hmem
        injection hmem with hmt
        obtain ⟨v, hv⟩ := memEventRows_lookup hevs row hrow lb sb a hinfo
        refine ⟨v, hv, ?_⟩
        rw [← hmt]
        unfold padTo
        rw [List.countP_append, List.countP_append]
        have hc1 : 1 ≤ row.clock := simulate_clock_pos hsim row hrow
        have hinit : (sim.memory_init.map memInitRow).countP
            (fun m => decide (m.addr = a ∧ m.clk = row.clock ∧ m.value = v)) = 0 := by
          rw [List.countP_eq_zero]
          intro m hm
          obtain ⟨p, _, hmp⟩ := List.mem_map.mp hm
          rw [← hmp]
          simp only [memInitRow, decide_eq_true_eq, not_and]
          intro _ hclk
          omega
        have hpadz : (List.replicate
              (next_power_of_two (sim.memory_init.map memInitRow ++ evs).length
                - (sim.memory_init.map memInitRow ++ evs).length) memZeroRow).countP
            (fun m => decide (m.addr = a ∧ m.clk = row.clock ∧ m.value = v)) = 0 := by
          rw [List.countP_eq_zero]
          intro m hm
          have hz : m = memZeroRow := List.eq_of_mem_replicate hm
          rw [hz]
          simp only [memZeroRow, decide_eq_true_eq, not_and]
          intro _ hclk
          omega
        have hev1 : evs.countP
            (fun m => decide (m.addr = a ∧ m.clk = row.clock ∧ m.value = v)) = 1 := by
          rw [memEventRows_eq hevs, countP_filterMap_eq]
          apply countP_eq_one_unique SimulationRow.clock _ sim.trace_rows row
            (simulate_clock_nodup hsim) hrow
          · have he : eventRowOf row = some
                { addr := a, clk := row.clock, value := v
                  is_lb := if lb then 1 else 0
                  is_sb := if sb then 1 else 0
                  is_init := 0, is_exec := 1 } := by
              simp [eventRowOf, hinfo, hv]
            rw [he]
            simp
          · intro y hy hpy
            cases hey : eventRowOf y with
            | none => rw [hey] at hpy; simp at hpy
            | some m =>
                rw [hey] at hpy
                simp only [Option.map_some', Option.getD_some, decide_eq_true_eq] at hpy
                have hclk := eventRowOf_clk hey
                rw [← hclk]
                exact hpy.2.1
        rw [hinit, hev1, hpadz]

/-- Claim C2 witness: the amended cross-table links applied to the
concrete program lbHaltProg, its simulation and its Memory table. -/
theorem claim_C2_witness :
    ∃ row, row ∈ lbHaltSimVal.trace_rows ∧ cpuRowOf lbHaltRow1 = cpuRowOf row
      ∧ (piRealRows lbHaltProg).countP
          (fun p => decide (p.program_counter = row.program_counter
            ∧ p.instruction_data = row.instruction.get_opcode)) = 1
      ∧ ∀ lb sb a, memOpInfo row.instruction = some (lb, sb, a) →
          ∃ v, List.lookup a row.memory_snapshot = some v
            ∧ lbHaltMemVal.countP (fun m => decide (m.addr = a ∧ m.clk = row.clock
                ∧ m.value = v)) = 1 :=
  claim_C2_links lbHaltProg lbHaltSimVal lbHaltMemVal (by decide) rfl rfl
    (cpuRowOf lbHaltRow1) (by decide) rfl

end Pixie
